import Mathlib

/-!
Verification of the path-selection core of the pan package
(selector.go, udp_dial.go, udp_listen.go): shallow embedding of the
selector strategies, the MRU reply cache, the probing round of the
pinging selector, and the send-time error paths, with theorems settling
the specified properties.

Machine integers of the source (uint16 sequence numbers, uint64
identifiers, durations) are modelled as Nat: the code only compares
them for equality or stores them, so no overflow matters for the claims.
External collaborators (the liveness and latency statistics registry,
the path pool) are modelled as explicit function parameters, matching
the specification which treats them as interfaces only.
-/

namespace Pan

/-- Autonomous-system identifier (addr.IA, a uint64 in the source). -/
abbrev IA := Nat

/-- Interface identifier (IfID, a uint64 in the source). -/
abbrev IfID := Nat

/-- Duration in nanoseconds (time.Duration in the source). -/
abbrev Duration := Nat

/-- Path fingerprint: opaque comparable key of a hop sequence. -/
abbrev PathFingerprint := Nat

/-- PathInterface: (domain-id, interface-id) pair. -/
structure PathInterface where
  ia : IA
  ifid : IfID
deriving DecidableEq, Repr, Inhabited

/-- Path: fingerprint plus the interface hop metadata
(Metadata.Interfaces in the source); the mutable forwarding payload is
not needed by any claim about selection and is omitted. -/
structure Path where
  fingerprint : PathFingerprint
  interfaces : List PathInterface
deriving DecidableEq, Repr, Inhabited

/-- SCION/UDP address: (IA, IP, port). IPs are modelled as Nat. -/
structure UDPAddr where
  ia : IA
  ip : Nat
  port : Nat
deriving DecidableEq, Repr, Inhabited

/-- scionAddr: (IA, IP) pair, the host part of a UDPAddr. -/
structure ScionAddr where
  ia : IA
  ip : Nat
deriving DecidableEq, Repr, Inhabited

/-- UDPAddr.scionAddr from the source: drop the port. -/
def UDPAddr.scionAddr (a : UDPAddr) : ScionAddr :=
  { ia := a.ia, ip := a.ip }

/-! ## DefaultSelector (selector.go lines 66-129) -/

/-- State of a DefaultSelector: the path slice and the current index. -/
structure DefaultSelector where
  paths : List Path
  current : Nat
deriving Repr, DecidableEq

/-- NewDefaultSelector: zero value, empty paths and index 0. -/
def NewDefaultSelector : DefaultSelector :=
  { paths := [], current := 0 }

/-- DefaultSelector.Path: nil when no paths are known, otherwise the
entry at the current index. -/
def DefaultSelector.Path (s : DefaultSelector) : Option Path :=
  if s.paths.length = 0 then none
  else some (s.paths.getD s.current default)

/-- DefaultSelector.Initialize: store the paths, index 0. -/
def DefaultSelector.Initialize (s : DefaultSelector)
    (_localA _remoteA : UDPAddr) (paths : List Pan.Path) : DefaultSelector :=
  { s with paths := paths, current := 0 }

/-- The new index computed by Refresh: 0 if the old list is empty or the
old current fingerprint does not occur in the new list, otherwise the
first position of that fingerprint in the new list (the loop with break
in the source). The read of the old current path uses getD; the claims
only concern states whose index is in range, where this coincides with
the Go indexing. -/
def refreshIndex (oldPaths : List Pan.Path) (cur : Nat) (paths : List Pan.Path) : Nat :=
  if 0 < oldPaths.length then
    let currentFingerprint := (oldPaths.getD cur default).fingerprint
    match paths.findIdx? (fun p => p.fingerprint == currentFingerprint) with
    | some i => i
    | none => 0
  else 0

/-- DefaultSelector.Refresh: replace the path slice, keeping the current
fingerprint position when still present. -/
def DefaultSelector.Refresh (s : DefaultSelector) (paths : List Pan.Path) :
    DefaultSelector :=
  { s with paths := paths, current := refreshIndex s.paths s.current paths }

/-- Modelled from the spec: isInterfaceOnPath (declared in path.go, not
among the provided sources): a path is affected by a down notification
for interface pi when any of its hops matches pi. -/
def isInterfaceOnPath (p : Pan.Path) (pi : PathInterface) : Bool :=
  p.interfaces.contains pi

/-- DefaultSelector.PathDown. The source reads s.paths[s.current]
unconditionally; Go slice indexing out of range panics, so the result is
an Option, none denoting the panic. The registry query
stats.FirstMoreAlive is an external collaborator passed as a function
returning an index or -1. -/
def DefaultSelector.PathDown (firstMoreAlive : Pan.Path → List Pan.Path → Int)
    (s : DefaultSelector) (pf : PathFingerprint) (pi : PathInterface) :
    Option DefaultSelector :=
  match s.paths.get? s.current with
  | none => none
  | some current =>
    if isInterfaceOnPath current pi || pf == current.fingerprint then
      let better := firstMoreAlive current s.paths
      if 0 ≤ better then some { s with current := better.toNat }
      else some s
    else some s

/-! ## FabridSelector state, Refresh and PathDown
(selector.go lines 336-507); Refresh and PathDown repeat the
DefaultSelector code verbatim in the source. -/

/-- State of a FabridSelector relevant to path selection (the control
plane client and context only matter to Initialize, which is modelled
separately below). -/
structure FabridSelector where
  paths : List Path
  current : Nat
deriving Repr, DecidableEq

/-- FabridSelector.Path: nil when no paths, else the current entry. -/
def FabridSelector.Path (s : FabridSelector) : Option Path :=
  if s.paths.length = 0 then none
  else some (s.paths.getD s.current default)

/-- FabridSelector.Refresh: same code as DefaultSelector.Refresh. -/
def FabridSelector.Refresh (s : FabridSelector) (paths : List Pan.Path) :
    FabridSelector :=
  { s with paths := paths, current := refreshIndex s.paths s.current paths }

/-- FabridSelector.PathDown: same code as DefaultSelector.PathDown,
including the unconditional s.paths[s.current] read. -/
def FabridSelector.PathDown (firstMoreAlive : Pan.Path → List Pan.Path → Int)
    (s : FabridSelector) (pf : PathFingerprint) (pi : PathInterface) :
    Option FabridSelector :=
  match s.paths.get? s.current with
  | none => none
  | some current =>
    if isInterfaceOnPath current pi || pf == current.fingerprint then
      let better := firstMoreAlive current s.paths
      if 0 ≤ better then some { s with current := better.toNat }
      else some s
    else some s

/-! ## Lemmas about findIdx?, used for the Refresh loop -/

/-- A successful findIdx? returns the first position satisfying the
predicate: it is in range, satisfies the predicate, and no earlier
position does. -/
theorem findIdx?_first {α : Type} [Inhabited α] (p : α → Bool) (l : List α) (i : Nat)
    (h : l.findIdx? p = some i) :
    i < l.length ∧ p (l.getD i default) = true ∧
      ∀ j, j < i → p (l.getD j default) = false := by
  induction l generalizing i with
  | nil => simp [List.findIdx?] at h
  | cons x xs ih =>
    rw [List.findIdx?_cons] at h
    by_cases hx : p x
    · simp [hx] at h
      subst h
      refine ⟨Nat.succ_pos _, by simpa using hx, ?_⟩
      intro j hj
      omega
    · simp [hx] at h
      obtain ⟨i₀, hi₀, rfl⟩ := h
      obtain ⟨h₁, h₂, h₃⟩ := ih i₀ hi₀
      refine ⟨by simpa using Nat.succ_lt_succ h₁, by simpa using h₂, ?_⟩
      intro j hj
      cases j with
      | zero => simpa using hx
      | succ j₀ => simpa using h₃ j₀ (by omega)

/-- findIdx? succeeds when some element satisfies the predicate. -/
theorem findIdx?_isSome_of_mem {α : Type} (p : α → Bool) (l : List α)
    (x : α) (hx : x ∈ l) (hpx : p x = true) : ∃ i, l.findIdx? p = some i := by
  cases hf : l.findIdx? p with
  | none =>
    rw [List.findIdx?_eq_none_iff] at hf
    exact absurd hpx (by simp [hf x hx])
  | some i => exact ⟨i, rfl⟩

/-! ## C1: Refresh pins the selected fingerprint or resets to 0 -/

/-- The Refresh postcondition of the claim, for the new index computed
from an old list, old index and new list: if the old current
fingerprint occurs in the new list, the new index is the first position
of that fingerprint there (so the selected fingerprint is unchanged);
otherwise the new index is 0. -/
def RefreshPinsOrResets (oldPaths : List Pan.Path) (cur : Nat)
    (new : List Pan.Path) : Prop :=
  ((oldPaths.getD cur default).fingerprint ∈ new.map Pan.Path.fingerprint →
    refreshIndex oldPaths cur new < new.length ∧
    (new.getD (refreshIndex oldPaths cur new) default).fingerprint =
      (oldPaths.getD cur default).fingerprint ∧
    ∀ j, j < refreshIndex oldPaths cur new →
      (new.getD j default).fingerprint ≠ (oldPaths.getD cur default).fingerprint) ∧
  ((oldPaths.getD cur default).fingerprint ∉ new.map Pan.Path.fingerprint →
    refreshIndex oldPaths cur new = 0)

/-- Core of C1, stated about refreshIndex (the common code of
DefaultSelector.Refresh and FabridSelector.Refresh). -/
theorem refreshIndex_pins_or_resets (oldPaths : List Pan.Path) (cur : Nat)
    (new : List Pan.Path) (hcur : cur < oldPaths.length) :
    RefreshPinsOrResets oldPaths cur new := by
  have hpos : 0 < oldPaths.length := Nat.lt_of_le_of_lt (Nat.zero_le _) hcur
  constructor
  · intro hmem
    obtain ⟨q, hq, hqfp⟩ := List.mem_map.mp hmem
    obtain ⟨i, hi⟩ := findIdx?_isSome_of_mem
      (fun p => p.fingerprint == (oldPaths.getD cur default).fingerprint) new q hq
      (by simpa using hqfp)
    obtain ⟨h₁, h₂, h₃⟩ := findIdx?_first _ _ _ hi
    have hidx : refreshIndex oldPaths cur new = i := by
      simp only [refreshIndex, if_pos hpos, hi]
    rw [hidx]
    refine ⟨h₁, by simpa using h₂, ?_⟩
    intro j hj
    have := h₃ j hj
    simpa using this
  · intro hmem
    have hnone : new.findIdx?
        (fun p => p.fingerprint == (oldPaths.getD cur default).fingerprint) = none := by
      rw [List.findIdx?_eq_none_iff]
      intro q hq
      simp only [beq_eq_false_iff_ne, ne_eq]
      intro hbad
      exact hmem (List.mem_map.mpr ⟨q, hq, hbad⟩)
    simp only [refreshIndex, if_pos hpos, hnone]

/-- C1: For DefaultSelector and FabridSelector, on Refresh with any new
path list, if the currently selected fingerprint occurs in the new list
the selection keeps that fingerprint, at its first position in the new
list; otherwise the index resets to 0. -/
theorem c1_refresh_pins_or_resets
    (s : DefaultSelector) (t : FabridSelector) (new : List Pan.Path)
    (hs : s.current < s.paths.length) (ht : t.current < t.paths.length) :
    ((s.Refresh new).paths = new ∧
      (s.Refresh new).current = refreshIndex s.paths s.current new ∧
      RefreshPinsOrResets s.paths s.current new) ∧
    ((t.Refresh new).paths = new ∧
      (t.Refresh new).current = refreshIndex t.paths t.current new ∧
      RefreshPinsOrResets t.paths t.current new) :=
  ⟨⟨rfl, rfl, refreshIndex_pins_or_resets s.paths s.current new hs⟩,
   ⟨rfl, rfl, refreshIndex_pins_or_resets t.paths t.current new ht⟩⟩

/-- Sample path with fingerprint 1 for concrete evaluations. -/
def pathA : Pan.Path := { fingerprint := 1, interfaces := [⟨10, 1⟩, ⟨20, 2⟩] }

/-- Sample path with fingerprint 2 for concrete evaluations. -/
def pathB : Pan.Path := { fingerprint := 2, interfaces := [⟨10, 3⟩, ⟨30, 4⟩] }

/-- Sample path with fingerprint 3 for concrete evaluations. -/
def pathC : Pan.Path := { fingerprint := 3, interfaces := [⟨10, 5⟩, ⟨40, 6⟩] }

/-- Witness for C1: a selector currently on fingerprint 2 at index 1,
refreshed with a list holding fingerprint 2 at position 1. -/
theorem c1_refresh_witness :
    ((⟨[pathA, pathB], 1⟩ : DefaultSelector).current <
      (⟨[pathA, pathB], 1⟩ : DefaultSelector).paths.length) ∧
    ((((⟨[pathA, pathB], 1⟩ : DefaultSelector).Refresh [pathC, pathB]).paths =
        [pathC, pathB] ∧
      ((⟨[pathA, pathB], 1⟩ : DefaultSelector).Refresh [pathC, pathB]).current =
        refreshIndex [pathA, pathB] 1 [pathC, pathB] ∧
      RefreshPinsOrResets [pathA, pathB] 1 [pathC, pathB]) ∧
     (((⟨[pathA, pathB], 1⟩ : FabridSelector).Refresh [pathC, pathB]).paths =
        [pathC, pathB] ∧
      ((⟨[pathA, pathB], 1⟩ : FabridSelector).Refresh [pathC, pathB]).current =
        refreshIndex [pathA, pathB] 1 [pathC, pathB] ∧
      RefreshPinsOrResets [pathA, pathB] 1 [pathC, pathB])) :=
  ⟨by decide,
   c1_refresh_pins_or_resets ⟨[pathA, pathB], 1⟩ ⟨[pathA, pathB], 1⟩
     [pathC, pathB] (by decide) (by decide)⟩

/-! ## C4: PathDown for unrelated fingerprints and interfaces -/

/-- Counterexample for C4: with no paths at all, PathDown reads
s.paths[s.current] out of range and faults (none models the Go panic),
for both DefaultSelector and FabridSelector, so the call does not
complete without fault. -/
theorem c4_pathdown_empty_faults :
    DefaultSelector.PathDown (fun _ _ => -1) ⟨[], 0⟩ 5 ⟨1, 2⟩ = none ∧
    FabridSelector.PathDown (fun _ _ => -1) ⟨[], 0⟩ 5 ⟨1, 2⟩ = none :=
  ⟨rfl, rfl⟩

/-- C4 amended: whenever the selector holds at least one path (current
index in range) and neither the fingerprint nor the interface of the
down notification matches the currently selected path, PathDown leaves
the state unchanged and completes without fault, for any registry
answer; the no-paths case is excluded because the source faults there. -/
theorem c4_pathdown_unrelated_noop
    (firstMoreAlive : Pan.Path → List Pan.Path → Int)
    (s : DefaultSelector) (t : FabridSelector)
    (pf : PathFingerprint) (pi : PathInterface)
    (hs : s.current < s.paths.length)
    (ht : t.current < t.paths.length)
    (hsi : isInterfaceOnPath (s.paths.getD s.current default) pi = false)
    (hsf : pf ≠ (s.paths.getD s.current default).fingerprint)
    (hti : isInterfaceOnPath (t.paths.getD t.current default) pi = false)
    (htf : pf ≠ (t.paths.getD t.current default).fingerprint) :
    s.PathDown firstMoreAlive pf pi = some s ∧
    t.PathDown firstMoreAlive pf pi = some t := by
  have hsg : s.paths.get? s.current = some (s.paths.getD s.current default) := by
    rw [List.get?_eq_getElem?, List.getElem?_eq_getElem hs]
    simp [List.getD_eq_getElem?_getD, List.getElem?_eq_getElem hs]
  have htg : t.paths.get? t.current = some (t.paths.getD t.current default) := by
    rw [List.get?_eq_getElem?, List.getElem?_eq_getElem ht]
    simp [List.getD_eq_getElem?_getD, List.getElem?_eq_getElem ht]
  have hconds : (isInterfaceOnPath (s.paths.getD s.current default) pi ||
      pf == (s.paths.getD s.current default).fingerprint) = false := by
    rw [hsi, Bool.false_or, beq_eq_false_iff_ne]
    exact hsf
  have hcondt : (isInterfaceOnPath (t.paths.getD t.current default) pi ||
      pf == (t.paths.getD t.current default).fingerprint) = false := by
    rw [hti, Bool.false_or, beq_eq_false_iff_ne]
    exact htf
  constructor
  · unfold DefaultSelector.PathDown
    rw [hsg]
    simp only [List.getD_eq_getElem?_getD] at hconds
    simp [hconds]
  · unfold FabridSelector.PathDown
    rw [htg]
    simp only [List.getD_eq_getElem?_getD] at hcondt
    simp [hcondt]

/-- Witness for C4 amended: a one-path selector, a down notification
for an unknown fingerprint 7 on an interface not on the path. -/
theorem c4_pathdown_unrelated_witness :
    ((⟨[pathA], 0⟩ : DefaultSelector).current <
      (⟨[pathA], 0⟩ : DefaultSelector).paths.length) ∧
    isInterfaceOnPath pathA ⟨99, 99⟩ = false ∧
    (7 : PathFingerprint) ≠ pathA.fingerprint ∧
    (DefaultSelector.PathDown (fun _ _ => 0) ⟨[pathA], 0⟩ 7 ⟨99, 99⟩ =
        some ⟨[pathA], 0⟩ ∧
      FabridSelector.PathDown (fun _ _ => 0) ⟨[pathA], 0⟩ 7 ⟨99, 99⟩ =
        some ⟨[pathA], 0⟩) :=
  ⟨by decide, by decide, by decide,
   c4_pathdown_unrelated_noop (fun _ _ => 0) ⟨[pathA], 0⟩ ⟨[pathA], 0⟩ 7 ⟨99, 99⟩
     (by decide) (by decide) (by decide) (by decide) (by decide) (by decide)⟩

/-! ## C5: the PingingSelector always asks the registry
(selector.go lines 131-192) -/

/-- State of a PingingSelector relevant to path selection: the path
slice, the current index and the two endpoint addresses (the field
named local in the source is localAddr here). The registry query
stats.LowestLatency is a function parameter. -/
structure PingingSelector where
  paths : List Pan.Path
  current : Nat
  localAddr : ScionAddr
  remote : ScionAddr
deriving Repr, DecidableEq

/-- PingingSelector.Path: nil when no paths, else the current entry. -/
def PingingSelector.Path (s : PingingSelector) : Option Pan.Path :=
  if s.paths.length = 0 then none
  else some (s.paths.getD s.current default)

/-- PingingSelector.Initialize: store both endpoints and the paths,
then select the index the registry reports as lowest latency. -/
def PingingSelector.Initialize (lowestLatency : ScionAddr → List Pan.Path → Nat)
    (s : PingingSelector) (localA remoteA : UDPAddr) (paths : List Pan.Path) :
    PingingSelector :=
  { s with localAddr := localA.scionAddr, remote := remoteA.scionAddr,
           paths := paths,
           current := lowestLatency remoteA.scionAddr paths }

/-- PingingSelector.Refresh: replace the paths and select the index the
registry reports as lowest latency. -/
def PingingSelector.Refresh (lowestLatency : ScionAddr → List Pan.Path → Nat)
    (s : PingingSelector) (paths : List Pan.Path) : PingingSelector :=
  { s with paths := paths, current := lowestLatency s.remote paths }

/-- PingingSelector.reselectPath: select the index the registry reports
as lowest latency over the current candidate list. -/
def PingingSelector.reselectPath (lowestLatency : ScionAddr → List Pan.Path → Nat)
    (s : PingingSelector) : PingingSelector :=
  { s with current := lowestLatency s.remote s.paths }

/-- PingingSelector.PathDown: reselect, ignoring the notification. -/
def PingingSelector.PathDown (lowestLatency : ScionAddr → List Pan.Path → Nat)
    (s : PingingSelector) (_pf : PathFingerprint) (_pi : PathInterface) :
    PingingSelector :=
  s.reselectPath lowestLatency

/-- C5: Initialize, Refresh and PathDown of the PingingSelector all set
the current selection to exactly the index the registry query
LowestLatency returns over the current candidate list and stored
remote, independently of the previous selection. -/
theorem c5_pinging_lowest_latency
    (lowestLatency : ScionAddr → List Pan.Path → Nat) (s : PingingSelector)
    (localA remoteA : UDPAddr) (paths : List Pan.Path)
    (pf : PathFingerprint) (pi : PathInterface) :
    ((s.Initialize lowestLatency localA remoteA paths).current =
        lowestLatency remoteA.scionAddr paths ∧
      (s.Initialize lowestLatency localA remoteA paths).paths = paths) ∧
    ((s.Refresh lowestLatency paths).current = lowestLatency s.remote paths ∧
      (s.Refresh lowestLatency paths).paths = paths) ∧
    ((s.PathDown lowestLatency pf pi).current =
        lowestLatency s.remote s.paths ∧
      (s.PathDown lowestLatency pf pi).paths = s.paths) :=
  ⟨⟨rfl, rfl⟩, ⟨rfl, rfl⟩, ⟨rfl, rfl⟩⟩

/-! ## FabridSelector.Initialize (selector.go lines 373-470): the
per-hop policy records and the selection-state update. The dataplane
wrap, the control-plane session and the key-fetch callbacks only touch
the forwarding payload and external collaborators; no claim depends on
them. -/

/-- One per-hop policy record (snet.FabridPolicyPerHop). The policy
pointer, identical in every record, is omitted; an ingress or egress
that is not assigned keeps the Go zero value 0. -/
structure FabridPolicyPerHop where
  ia : IA
  ingress : Nat
  egress : Nat
deriving DecidableEq, Repr, Inhabited

/-- The interior loop of FabridSelector.Initialize: for i starting at 1
and stepping by 2 while i is below len(ifaces)-1, one record with
ingress ifaces[i] and egress ifaces[i+1]. Modelled on the suffix of the
interface list after the first entry: each step consumes two entries,
and the loop stops when fewer than two remain (that is when the index
has reached len-1). -/
def fabridInteriorHops : List PathInterface → List FabridPolicyPerHop
  | a :: b :: rest =>
    { ia := a.ia, ingress := a.ifid, egress := b.ifid } :: fabridInteriorHops rest
  | _ => []

/-- FabridSelector.Initialize: reads paths[0] and the first and last
entries of its interface metadata unconditionally (Go panics on an
empty path list or an empty interface list, modelled by none). Returns
the per-hop policy records it builds together with the updated state
(paths stored, current index 0). The dataplane wrap and control-plane
session setup between the record construction and the state update
only touch the forwarding payload and external collaborators; their
failure branches (which log and return with the selector state
untouched) depend on those collaborators and are not modelled — the
model is the success projection, which is all the claims quantify
over. -/
def FabridSelector.Initialize (_s : FabridSelector)
    (_localA _remoteA : UDPAddr) (paths : List Pan.Path) :
    Option (List FabridPolicyPerHop × FabridSelector) :=
  match paths with
  | [] => none
  | path :: _ =>
    match path.interfaces with
    | [] => none
    | i0 :: irest =>
      let lastIf := (i0 :: irest).getLast (by simp)
      let hops :=
        ({ ia := i0.ia, ingress := 0, egress := i0.ifid } ::
          fabridInteriorHops irest) ++
        [{ ia := lastIf.ia, ingress := lastIf.ifid, egress := 0 }]
      some (hops, { _s with paths := paths, current := 0 })

/-- The interior loop produces one record per two remaining entries. -/
theorem fabridInteriorHops_length (l : List PathInterface) :
    (fabridInteriorHops l).length = l.length / 2 := by
  induction l using fabridInteriorHops.induct with
  | case1 a b rest ih => simp [fabridInteriorHops, ih]; omega
  | case2 l h => cases l with
    | nil => simp [fabridInteriorHops]
    | cons a as =>
      cases as with
      | nil => simp [fabridInteriorHops]
      | cons b bs => exact absurd rfl (h a b bs)

/-- Indexing the interior records: record j pairs entries 2j and 2j+1. -/
theorem fabridInteriorHops_getD (l : List PathInterface) (j : Nat)
    (hj : 2 * j + 1 < l.length) :
    (fabridInteriorHops l).getD j default =
      { ia := (l.getD (2 * j) default).ia,
        ingress := (l.getD (2 * j) default).ifid,
        egress := (l.getD (2 * j + 1) default).ifid } := by
  induction j generalizing l with
  | zero =>
    match l with
    | [] => simp at hj
    | [a] => simp at hj
    | a :: b :: rest => simp [fabridInteriorHops]
  | succ j ih =>
    match l with
    | [] => simp at hj
    | [a] => simp at hj
    | a :: b :: rest =>
      have hrest : 2 * j + 1 < rest.length := by
        simp at hj
        omega
      have h2 : 2 * (j + 1) = 2 * j + 2 := by omega
      have h3 : 2 * (j + 1) + 1 = 2 * j + 3 := by omega
      simp only [fabridInteriorHops, List.getD_cons_succ, h2, h3]
      simpa using ih rest hrest

/-- getLast as a getD at the last position. -/
theorem getLast_eq_getD {α : Type} (l : List α) (h : l ≠ []) (d : α) :
    l.getLast h = l.getD (l.length - 1) d := by
  have hlt : l.length - 1 < l.length := by
    cases l with
    | nil => exact absurd rfl h
    | cons x xs => simp
  rw [List.getLast_eq_getElem, List.getD_eq_getElem l d hlt]

/-- The Initialize postcondition of C7, for a first path whose interface
metadata has length 2n: n+1 records, the first egress-only with entry 0,
interior record j+1 pairing entries 2j+1 and 2j+2 as ingress and
egress, the last ingress-only with entry 2n-1. -/
def FabridInitHops (s : FabridSelector) (localA remoteA : UDPAddr)
    (path : Pan.Path) (rest : List Pan.Path) (n : Nat) : Prop :=
  ∃ hops s2,
    s.Initialize localA remoteA (path :: rest) = some (hops, s2) ∧
    hops.length = n + 1 ∧
    hops.getD 0 default =
      { ia := (path.interfaces.getD 0 default).ia, ingress := 0,
        egress := (path.interfaces.getD 0 default).ifid } ∧
    (∀ j, j < n - 1 →
      hops.getD (j + 1) default =
        { ia := (path.interfaces.getD (2 * j + 1) default).ia,
          ingress := (path.interfaces.getD (2 * j + 1) default).ifid,
          egress := (path.interfaces.getD (2 * j + 2) default).ifid }) ∧
    hops.getD n default =
      { ia := (path.interfaces.getD (2 * n - 1) default).ia,
        ingress := (path.interfaces.getD (2 * n - 1) default).ifid,
        egress := 0 } ∧
    s2 = { paths := path :: rest, current := 0 }

/-- C7: FabridSelector.Initialize on a first candidate path whose
metadata lists 2n interfaces builds exactly n+1 per-hop policy records:
egress-only for the first interface, ingress+egress for each interior
pair, ingress-only for the last interface. -/
theorem c7_fabrid_initialize_hops (s : FabridSelector)
    (localA remoteA : UDPAddr) (path : Pan.Path) (rest : List Pan.Path)
    (n : Nat) (hn : 1 ≤ n) (hlen : path.interfaces.length = 2 * n) :
    FabridInitHops s localA remoteA path rest n := by
  match hI : path.interfaces, hlen with
  | [], hlen => simp at hlen; omega
  | i0 :: irest, hlen =>
  have hirest : irest.length = 2 * n - 1 := by
    simp at hlen
    omega
  have hinterior : (fabridInteriorHops irest).length = n - 1 := by
    rw [fabridInteriorHops_length, hirest]
    omega
  have hinit : s.Initialize localA remoteA (path :: rest) =
      some ((({ ia := i0.ia, ingress := 0, egress := i0.ifid } ::
        fabridInteriorHops irest) ++
        [{ ia := ((i0 :: irest).getLast (by simp)).ia,
           ingress := ((i0 :: irest).getLast (by simp)).ifid, egress := 0 }]),
        { paths := path :: rest, current := 0 }) := by
    simp only [FabridSelector.Initialize, hI]
  refine ⟨_, _, hinit, ?_, ?_, ?_, ?_, rfl⟩
  · simp only [List.length_append, List.length_cons, List.length_nil, hinterior]
    omega
  · simp [hI]
  · intro j hj
    have hfirst : j + 1 < ({ ia := i0.ia, ingress := 0, egress := i0.ifid } ::
        fabridInteriorHops irest).length := by
      simp only [List.length_cons, hinterior]
      omega
    rw [List.getD_append _ _ _ _ hfirst, List.getD_cons_succ]
    rw [fabridInteriorHops_getD irest j (by omega)]
    have e1 : (irest.getD (2 * j) default) = path.interfaces.getD (2 * j + 1) default := by
      rw [hI, List.getD_cons_succ]
    have e2 : (irest.getD (2 * j + 1) default) = path.interfaces.getD (2 * j + 2) default := by
      rw [hI, List.getD_cons_succ]
    rw [e1, e2]
  · have hleft : ({ ia := i0.ia, ingress := 0, egress := i0.ifid } ::
        fabridInteriorHops irest).length ≤ n := by
      simp only [List.length_cons, hinterior]
      omega
    rw [List.getD_append_right _ _ _ _ hleft]
    have hlen2 : ({ ia := i0.ia, ingress := 0, egress := i0.ifid } ::
        fabridInteriorHops irest).length = n := by
      simp only [List.length_cons, hinterior]
      omega
    rw [hlen2]
    simp only [Nat.sub_self, List.getD_cons_zero]
    have harg : (i0 :: irest).length - 1 = 2 * n - 1 := by
      simp only [List.length_cons, hirest]
      omega
    have hlast : (i0 :: irest).getLast (by simp) =
        path.interfaces.getD (2 * n - 1) default := by
      rw [getLast_eq_getD (i0 :: irest) (by simp) default, harg, hI]
    rw [hlast]

/-- Witness for C7: a path with four interfaces (n = 2) yields three
records: egress-only, one interior pair, ingress-only. -/
theorem c7_fabrid_initialize_witness :
    1 ≤ 2 ∧
    ({ fingerprint := 9,
       interfaces := [⟨11, 1⟩, ⟨12, 2⟩, ⟨12, 3⟩, ⟨13, 4⟩] } : Pan.Path).interfaces.length
        = 2 * 2 ∧
    FabridInitHops ⟨[], 0⟩ ⟨1, 1, 1⟩ ⟨2, 2, 2⟩
      { fingerprint := 9, interfaces := [⟨11, 1⟩, ⟨12, 2⟩, ⟨12, 3⟩, ⟨13, 4⟩] } [] 2 :=
  ⟨by decide, by decide,
   c7_fabrid_initialize_hops ⟨[], 0⟩ ⟨1, 1, 1⟩ ⟨2, 2, 2⟩
     { fingerprint := 9, interfaces := [⟨11, 1⟩, ⟨12, 2⟩, ⟨12, 3⟩, ⟨13, 4⟩] } [] 2
     (by decide) (by decide)⟩

/-! ## C10: the non-emptiness precondition of FabridSelector.Initialize -/

/-- C10: FabridSelector.Initialize faults (none) on an empty path list
and on a first path with empty interface metadata, while
DefaultSelector.Initialize accepts an empty path list and leaves a
state whose Path() is nil. -/
theorem c10_fabrid_initialize_needs_paths (s : FabridSelector)
    (d : DefaultSelector) (localA remoteA : UDPAddr)
    (path : Pan.Path) (rest : List Pan.Path)
    (hifs : path.interfaces = []) :
    s.Initialize localA remoteA [] = none ∧
    s.Initialize localA remoteA (path :: rest) = none ∧
    (d.Initialize localA remoteA []).Path = none ∧
    (d.Initialize localA remoteA []).paths = [] := by
  refine ⟨rfl, ?_, rfl, rfl⟩
  simp [FabridSelector.Initialize, hifs]

/-- Witness for C10: a path with no interface metadata. -/
theorem c10_fabrid_initialize_witness :
    (({ fingerprint := 4, interfaces := [] } : Pan.Path).interfaces = []) ∧
    ((⟨[], 0⟩ : FabridSelector).Initialize ⟨1, 1, 1⟩ ⟨2, 2, 2⟩ [] = none ∧
     (⟨[], 0⟩ : FabridSelector).Initialize ⟨1, 1, 1⟩ ⟨2, 2, 2⟩
        [{ fingerprint := 4, interfaces := [] }] = none ∧
     ((⟨[pathA], 3⟩ : DefaultSelector).Initialize ⟨1, 1, 1⟩ ⟨2, 2, 2⟩ []).Path = none ∧
     ((⟨[pathA], 3⟩ : DefaultSelector).Initialize ⟨1, 1, 1⟩ ⟨2, 2, 2⟩ []).paths = []) :=
  ⟨rfl,
   c10_fabrid_initialize_needs_paths ⟨[], 0⟩ ⟨[pathA], 3⟩ ⟨1, 1, 1⟩ ⟨2, 2, 2⟩
     { fingerprint := 4, interfaces := [] } [] rfl⟩

/-! ## Send-time error paths (udp_dial.go Write, udp_listen.go WriteTo) -/

/-- The distinct error values of the send path: errNoPathTo(ia)
(declared with the path pool, outside the provided sources, as a
distinct error carrying the destination IA) and errBadDstAddress from
udp_listen.go. -/
inductive WriteErr where
  | errNoPathTo (ia : IA)
  | errBadDstAddress
deriving DecidableEq, Repr

/-- The arguments a successful send hands to baseUDPConn.writeMsg (the
external packet transport): source, destination, optional explicit
path, payload size. -/
structure WriteMsg where
  src : UDPAddr
  dst : UDPAddr
  path : Option Pan.Path
  payload : Nat
deriving DecidableEq, Repr

/-- The net.Addr argument of WriteTo: either a pan UDPAddr or a value
of any other concrete address type (the failed type assertion branch). -/
inductive NetAddr where
  | udp (a : UDPAddr)
  | other
deriving DecidableEq, Repr

/-- dialedConn.Write: for a remote in a different domain the selector
is consulted (its Path() result is the selectorPath argument) and a nil
path is the no-path error, with nothing written; otherwise the packet
is passed to writeMsg with a nil (absent) path. The connection state
(local, remote) is read-only here, so the connection stays usable after
an error. -/
def dialedConn.Write (localA remoteA : UDPAddr)
    (selectorPath : Option Pan.Path) (payload : Nat) :
    Except WriteErr WriteMsg :=
  if localA.ia ≠ remoteA.ia then
    match selectorPath with
    | none => .error (.errNoPathTo remoteA.ia)
    | some p =>
      .ok { src := localA, dst := remoteA, path := some p, payload := payload }
  else
    .ok { src := localA, dst := remoteA, path := none, payload := payload }

/-- listenConn.WriteTo: a destination that is not a UDPAddr is the
bad-destination error; a cross-domain destination with no reply path
from the selector is the no-path error; otherwise the packet is passed
to writeMsg (nil path within the local domain). -/
def listenConn.WriteTo (localA : UDPAddr)
    (selectorPath : UDPAddr → Option Pan.Path) (dst : NetAddr)
    (payload : Nat) : Except WriteErr WriteMsg :=
  match dst with
  | .other => .error .errBadDstAddress
  | .udp sdst =>
    if localA.ia ≠ sdst.ia then
      match selectorPath sdst with
      | none => .error (.errNoPathTo sdst.ia)
      | some p =>
        .ok { src := localA, dst := sdst, path := some p, payload := payload }
    else
      .ok { src := localA, dst := sdst, path := none, payload := payload }

/-- C8: a no-path condition at send time is surfaced as the distinct
no-path error by dialedConn.Write for cross-domain remotes with no
selector path, and a non-UDPAddr destination in listenConn.WriteTo is
surfaced as the bad-destination error; in both cases nothing is passed
to the transport (the result is an error, not a write). -/
theorem c8_send_errors_surfaced (localA remoteA : UDPAddr)
    (selPath : UDPAddr → Option Pan.Path) (payload : Nat)
    (hx : localA.ia ≠ remoteA.ia) :
    dialedConn.Write localA remoteA none payload =
      .error (.errNoPathTo remoteA.ia) ∧
    (∀ sdst, localA.ia ≠ sdst.ia → selPath sdst = none →
      listenConn.WriteTo localA selPath (.udp sdst) payload =
        .error (.errNoPathTo sdst.ia)) ∧
    listenConn.WriteTo localA selPath .other payload =
      .error .errBadDstAddress := by
  refine ⟨?_, ?_, rfl⟩
  · simp [dialedConn.Write, hx]
  · intro sdst hia hsel
    simp [listenConn.WriteTo, hia, hsel]

/-- Witness for C8: local in IA 1, remote in IA 2, selector without
paths. -/
theorem c8_send_errors_witness :
    (⟨1, 1, 1⟩ : UDPAddr).ia ≠ (⟨2, 2, 2⟩ : UDPAddr).ia ∧
    (dialedConn.Write ⟨1, 1, 1⟩ ⟨2, 2, 2⟩ none 7 =
        .error (.errNoPathTo (⟨2, 2, 2⟩ : UDPAddr).ia) ∧
      (∀ sdst, (⟨1, 1, 1⟩ : UDPAddr).ia ≠ sdst.ia →
        (fun _ => (none : Option Pan.Path)) sdst = none →
        listenConn.WriteTo ⟨1, 1, 1⟩ (fun _ => none) (.udp sdst) 7 =
          .error (.errNoPathTo sdst.ia)) ∧
      listenConn.WriteTo ⟨1, 1, 1⟩ (fun _ => none) .other 7 =
        .error .errBadDstAddress) :=
  ⟨by decide,
   c8_send_errors_surfaced ⟨1, 1, 1⟩ ⟨2, 2, 2⟩ (fun _ => none) 7 (by decide)⟩

/-- The subscriber and selector creation decision in DialUDP: a path
refresh subscriber (and, when the caller passed none, a default
selector) is created only when the remote IA differs from the local
IA. -/
def DialUDP.createsSubscriber (localIA remoteIA : IA) : Bool :=
  !(remoteIA == localIA)

/-- C9: for a remote in the same domain, Write never consults the
selector — the result is the same for every selector answer, is never
an error, and carries an absent path — and DialUDP creates no
subscriber or default selector for such a remote. -/
theorem c9_same_domain_write_no_selector (localA remoteA : UDPAddr)
    (selPath selPath2 : Option Pan.Path) (payload : Nat)
    (hs : localA.ia = remoteA.ia) :
    dialedConn.Write localA remoteA selPath payload =
      .ok { src := localA, dst := remoteA, path := none, payload := payload } ∧
    dialedConn.Write localA remoteA selPath payload =
      dialedConn.Write localA remoteA selPath2 payload ∧
    DialUDP.createsSubscriber localA.ia remoteA.ia = false := by
  have hni : ¬ localA.ia ≠ remoteA.ia := by simp [hs]
  refine ⟨?_, ?_, ?_⟩
  · simp [dialedConn.Write, hni]
  · simp [dialedConn.Write, hni]
  · simp [DialUDP.createsSubscriber, hs]

/-- Witness for C9: local and remote both in IA 1, selector holding no
path for one side of the comparison and a path for the other. -/
theorem c9_same_domain_write_witness :
    (⟨1, 1, 1⟩ : UDPAddr).ia = (⟨1, 2, 2⟩ : UDPAddr).ia ∧
    (dialedConn.Write ⟨1, 1, 1⟩ ⟨1, 2, 2⟩ none 7 =
        .ok { src := ⟨1, 1, 1⟩, dst := ⟨1, 2, 2⟩, path := none, payload := 7 } ∧
      dialedConn.Write ⟨1, 1, 1⟩ ⟨1, 2, 2⟩ none 7 =
        dialedConn.Write ⟨1, 1, 1⟩ ⟨1, 2, 2⟩ (some pathA) 7 ∧
      DialUDP.createsSubscriber (⟨1, 1, 1⟩ : UDPAddr).ia (⟨1, 2, 2⟩ : UDPAddr).ia
        = false) :=
  ⟨by decide,
   c9_same_domain_write_no_selector ⟨1, 1, 1⟩ ⟨1, 2, 2⟩ none (some pathA) 7 rfl⟩

/-! ## DefaultReplySelector and the MRU reply cache
(udp_listen.go lines 229-391) -/

/-- pathsMRU: list of paths, most recently used (inserted) first. -/
abbrev pathsMRU := List Pan.Path

/-- pathsMRU.insert from the source: search the first entry with the
inserted path's fingerprint (the index equals the length when absent);
an absent fingerprint is appended when below capacity, else overwrites
the last entry (the least recently used); the entry at the chosen
position is set to the new path and rotated to the front (the copy
shifts entries 0..i-1 right by one and puts the chosen entry at 0). -/
def pathsMRU.insert (p : pathsMRU) (path : Pan.Path) (maxEntries : Nat) : pathsMRU :=
  let i0 := p.findIdx (fun q => q.fingerprint == path.fingerprint)
  let step : pathsMRU × Nat :=
    if i0 = p.length then
      if p.length < maxEntries then (p ++ [path], p.length)
      else (p.set (p.length - 1) path, p.length - 1)
    else (p.set i0 path, i0)
  if step.2 ≠ 0 then
    step.1.getD step.2 default :: (step.1.take step.2 ++ step.1.drop (step.2 + 1))
  else step.1

/-- The specification shape of one MRU insert: the new path goes to the
front, an older entry with the same fingerprint disappears, the rest
keeps its order and the list is truncated to the capacity. -/
def mruInsertSpec (path : Pan.Path) (p : pathsMRU) (maxEntries : Nat) : pathsMRU :=
  (path :: p.filter (fun q => q.fingerprint != path.fingerprint)).take maxEntries

/-- Setting index i then taking i elements leaves the prefix unchanged. -/
theorem take_set {α : Type} (l : List α) (i : Nat) (x : α) :
    (l.set i x).take i = l.take i := by
  apply List.ext_getElem
  · simp
  · intro j h1 h2
    simp only [List.getElem_take]
    rw [List.getElem_set_ne]
    have := List.length_take i l
    omega

/-- Reading back the entry just set. -/
theorem getD_set_self {α : Type} [Inhabited α] (l : List α) (i : Nat) (x : α)
    (h : i < l.length) : (l.set i x).getD i default = x := by
  rw [List.getD_eq_getElem?_getD, List.getElem?_set_self]
  · rfl
  · simpa using h

/-- Removing the first entry carrying a fingerprint, by position, is
the same as filtering that fingerprint out, when fingerprints are
unique. -/
theorem take_drop_firstIdx_eq_filter (p : pathsMRU) (fp : PathFingerprint)
    (hnodup : (p.map Pan.Path.fingerprint).Nodup)
    (hlt : p.findIdx (fun q => q.fingerprint == fp) < p.length) :
    p.take (p.findIdx (fun q => q.fingerprint == fp)) ++
      p.drop (p.findIdx (fun q => q.fingerprint == fp) + 1) =
    p.filter (fun q => q.fingerprint != fp) := by
  induction p with
  | nil => simp at hlt
  | cons a as ih =>
    by_cases ha : a.fingerprint == fp
    · have hidx : (a :: as).findIdx (fun q => q.fingerprint == fp) = 0 := by
        simp [List.findIdx_cons, ha]
      rw [hidx]
      simp only [List.take_zero, Nat.zero_add, List.drop_one, List.nil_append,
        List.tail_cons]
      have hafp : a.fingerprint = fp := by simpa using ha
      have hnotin : ∀ q ∈ as, (q.fingerprint != fp) = true := by
        intro q hq
        simp only [List.map, List.nodup_cons] at hnodup
        have : fp ∉ as.map Pan.Path.fingerprint := by
          rw [← hafp]
          exact hnodup.1
        simp only [bne_iff_ne, ne_eq]
        intro hbad
        exact this (hbad ▸ List.mem_map_of_mem Pan.Path.fingerprint hq)
      rw [List.filter_cons_of_neg (by simpa using hafp), List.filter_eq_self.mpr hnotin]
    · have hidx : (a :: as).findIdx (fun q => q.fingerprint == fp) =
          as.findIdx (fun q => q.fingerprint == fp) + 1 := by
        simp [List.findIdx_cons, ha]
      rw [hidx] at hlt ⊢
      simp only [List.take_succ_cons, List.drop_succ_cons, List.cons_append]
      rw [List.filter_cons_of_pos (by simpa using ha)]
      have hnodup2 : (as.map Pan.Path.fingerprint).Nodup := by
        simp only [List.map, List.nodup_cons] at hnodup
        exact hnodup.2
      rw [ih hnodup2 (by simpa using hlt)]

/-- Insert of an absent fingerprint below capacity: prepend. -/
theorem pathsMRU.insert_not_found_lt (p : pathsMRU) (path : Pan.Path) (C : Nat)
    (hfound : p.findIdx (fun q => q.fingerprint == path.fingerprint) = p.length)
    (hsz : p.length < C) :
    pathsMRU.insert p path C = path :: p := by
  simp only [pathsMRU.insert, hfound, if_pos, hsz, if_true, ite_true]
  rcases p with _ | ⟨a, as⟩
  · simp
  · have hne : (a :: as).length ≠ 0 := by simp
    simp only [hne, ne_eq, not_false_eq_true, if_true, ite_true,
      not_true_eq_false, if_false]
    rw [List.getD_append_right _ _ _ _ (Nat.le_refl _), Nat.sub_self,
      List.getD_cons_zero, List.take_left,
      List.drop_eq_nil_of_le (by simp), List.append_nil]

/-- Insert of an absent fingerprint at capacity: prepend and drop the
last (least recently used) entry. -/
theorem pathsMRU.insert_not_found_full (p : pathsMRU) (path : Pan.Path) (c : Nat)
    (hfound : p.findIdx (fun q => q.fingerprint == path.fingerprint) = p.length)
    (hfull : p.length = c + 1) :
    pathsMRU.insert p path (c + 1) = path :: p.take c := by
  simp only [pathsMRU.insert, hfound, if_pos, ite_true, hfull,
    Nat.add_sub_cancel, lt_self_iff_false, if_false, ite_false]
  rcases Nat.eq_zero_or_pos c with hc | hc
  · subst hc
    obtain ⟨a, rfl⟩ := List.length_eq_one.mp hfull
    simp
  · have hcne : c ≠ 0 := by omega
    simp only [hcne, ne_eq, not_false_eq_true, if_true, ite_true]
    rw [getD_set_self _ _ _ (by omega), take_set,
      List.drop_eq_nil_of_le (by simp [hfull]), List.append_nil]

/-- Insert of a present fingerprint: the stored entry is replaced by
the new path and moved to the front. -/
theorem pathsMRU.insert_found (p : pathsMRU) (path : Pan.Path) (C : Nat)
    (hlt : p.findIdx (fun q => q.fingerprint == path.fingerprint) < p.length)
    (hnodup : (p.map Pan.Path.fingerprint).Nodup) :
    pathsMRU.insert p path C =
      path :: p.filter (fun q => q.fingerprint != path.fingerprint) := by
  have hne : ¬ p.findIdx (fun q => q.fingerprint == path.fingerprint) = p.length :=
    Nat.ne_of_lt hlt
  simp only [pathsMRU.insert, hne, if_false, ite_false]
  rw [← take_drop_firstIdx_eq_filter p path.fingerprint hnodup hlt]
  by_cases hzero : p.findIdx (fun q => q.fingerprint == path.fingerprint) = 0
  · simp only [hzero, ne_eq, not_true_eq_false, if_false, ite_false,
      List.take_zero, Nat.zero_add, List.nil_append]
    rcases p with _ | ⟨a, as⟩
    · simp at hlt
    · simp [List.drop_one]
  · simp only [hzero, ne_eq, not_false_eq_true, if_true, ite_true]
    rw [getD_set_self _ _ _ hlt, take_set, List.drop_set_of_lt _ _ (by omega)]

/-- One source insert equals the specification shape whenever the list
respects the cache invariant: at most maxEntries entries, pairwise
distinct fingerprints, positive capacity. -/
theorem pathsMRU.insert_eq_spec (p : pathsMRU) (path : Pan.Path) (C : Nat)
    (hC : 0 < C) (hlen : p.length ≤ C)
    (hnodup : (p.map Pan.Path.fingerprint).Nodup) :
    pathsMRU.insert p path C = mruInsertSpec path p C := by
  obtain ⟨c, rfl⟩ : ∃ c, C = c + 1 := ⟨C - 1, by omega⟩
  by_cases hfound : p.findIdx (fun q => q.fingerprint == path.fingerprint) = p.length
  · have hnomem : ∀ q ∈ p, (q.fingerprint == path.fingerprint) = false :=
      List.findIdx_eq_length.mp hfound
    have hfilter : p.filter (fun q => q.fingerprint != path.fingerprint) = p := by
      apply List.filter_eq_self.mpr
      intro q hq
      simpa using hnomem q hq
    rcases Nat.lt_or_ge p.length (c + 1) with hsz | hsz
    · rw [pathsMRU.insert_not_found_lt p path (c + 1) hfound hsz,
        mruInsertSpec, hfilter, List.take_succ_cons,
        List.take_of_length_le (by omega)]
    · have hfull : p.length = c + 1 := by omega
      rw [pathsMRU.insert_not_found_full p path c hfound hfull,
        mruInsertSpec, hfilter, List.take_succ_cons]
  · have hlt : p.findIdx (fun q => q.fingerprint == path.fingerprint) < p.length :=
      Nat.lt_of_le_of_ne (List.findIdx_le_length _) hfound
    rw [pathsMRU.insert_found p path (c + 1) hlt hnodup, mruInsertSpec,
      List.take_succ_cons]
    have hflen : (p.filter (fun q => q.fingerprint != path.fingerprint)).length ≤ c := by
      rw [← take_drop_firstIdx_eq_filter p path.fingerprint hnodup hlt]
      have h1 := List.length_take (p.findIdx (fun q => q.fingerprint == path.fingerprint)) p
      have h2 := List.length_drop (p.findIdx (fun q => q.fingerprint == path.fingerprint) + 1) p
      simp only [List.length_append, h1, h2]
      omega
    rw [List.take_of_length_le hflen]

/-- The cache content determined by the most-recent-first list of
recorded paths: each step puts the newest in front, removes an older
entry with the same fingerprint and truncates to the capacity. -/
def mruSpec (C : Nat) : List Pan.Path → pathsMRU
  | [] => []
  | q :: older =>
    (q :: (mruSpec C older).filter (fun r => r.fingerprint != q.fingerprint)).take C

/-- Keep-first deduplication by fingerprint: of entries sharing a
fingerprint only the first (most recent) survives. -/
def dedupByFp : List Pan.Path → List Pan.Path
  | [] => []
  | q :: older =>
    q :: (dedupByFp older).filter (fun r => r.fingerprint != q.fingerprint)

/-- Keep-first deduplication of a fingerprint list. -/
def dedupFps : List PathFingerprint → List PathFingerprint
  | [] => []
  | f :: older => f :: (dedupFps older).filter (fun g => g != f)

/-- dedupByFp has pairwise distinct fingerprints. -/
theorem dedupByFp_nodup (l : List Pan.Path) :
    ((dedupByFp l).map Pan.Path.fingerprint).Nodup := by
  induction l with
  | nil => simp [dedupByFp]
  | cons q older ih =>
    simp only [dedupByFp, List.map, List.nodup_cons]
    constructor
    · intro hmem
      obtain ⟨r, hr, hrfp⟩ := List.mem_map.mp hmem
      have := List.of_mem_filter hr
      simp [hrfp] at this
    · exact List.Nodup.sublist
        (List.Sublist.map Pan.Path.fingerprint (List.filter_sublist _)) ih

/-- Filtering one fingerprint out of a list with pairwise distinct
fingerprints removes at most one entry. -/
theorem filter_bne_length_ge (l : List Pan.Path) (f : PathFingerprint)
    (hnd : (l.map Pan.Path.fingerprint).Nodup) :
    l.length - 1 ≤ (l.filter (fun r => r.fingerprint != f)).length := by
  induction l with
  | nil => simp
  | cons a as ih =>
    simp only [List.map, List.nodup_cons] at hnd
    by_cases ha : a.fingerprint = f
    · rw [List.filter_cons_of_neg (by simpa using ha)]
      have hall : as.filter (fun r => r.fingerprint != f) = as := by
        apply List.filter_eq_self.mpr
        intro r hr
        simp only [bne_iff_ne, ne_eq]
        intro hbad
        exact hnd.1 (by rw [ha, ← hbad]; exact List.mem_map_of_mem _ hr)
      rw [hall]
      simp
    · rw [List.filter_cons_of_pos (by simpa using ha)]
      have := ih hnd.2
      simp only [List.length_cons]
      omega

/-- Truncating before or after filtering one fingerprint agrees on the
first c entries, for lists with pairwise distinct fingerprints. -/
theorem take_filter_take (d : List Pan.Path) (f : PathFingerprint) (c : Nat)
    (hnd : (d.map Pan.Path.fingerprint).Nodup) :
    ((d.take (c + 1)).filter (fun r => r.fingerprint != f)).take c =
    (d.filter (fun r => r.fingerprint != f)).take c := by
  rcases Nat.lt_or_ge d.length (c + 1) with hsz | hsz
  · have hd2 : d.take (c + 1) = d := List.take_of_length_le (by omega)
    rw [hd2]
  · have htklen : (d.take (c + 1)).length = c + 1 := by
      rw [List.length_take]
      omega
    have hndtk : ((d.take (c + 1)).map Pan.Path.fingerprint).Nodup :=
      List.Nodup.sublist (List.Sublist.map _ (List.take_sublist _ _)) hnd
    have hfl : c ≤ ((d.take (c + 1)).filter (fun r => r.fingerprint != f)).length := by
      have := filter_bne_length_ge (d.take (c + 1)) f hndtk
      omega
    conv_rhs => rw [← List.take_append_drop (c + 1) d]
    rw [List.filter_append, List.take_append_of_le_length hfl]

/-- mruSpec is dedupByFp truncated to the capacity. -/
theorem mruSpec_eq_dedup_take (C : Nat) (hC : 0 < C) (l : List Pan.Path) :
    mruSpec C l = (dedupByFp l).take C := by
  obtain ⟨c, rfl⟩ : ∃ c, C = c + 1 := ⟨C - 1, by omega⟩
  induction l with
  | nil => simp [mruSpec, dedupByFp]
  | cons q older ih =>
    simp only [mruSpec, dedupByFp, ih, List.take_succ_cons]
    congr 1
    exact take_filter_take (dedupByFp older) q.fingerprint c (dedupByFp_nodup older)

/-- The cache invariant: mruSpec never exceeds the capacity. -/
theorem mruSpec_length_le (C : Nat) (hC : 0 < C) (l : List Pan.Path) :
    (mruSpec C l).length ≤ C := by
  rw [mruSpec_eq_dedup_take C hC, List.length_take]
  omega

/-- The cache invariant: mruSpec has pairwise distinct fingerprints. -/
theorem mruSpec_nodup (C : Nat) (hC : 0 < C) (l : List Pan.Path) :
    ((mruSpec C l).map Pan.Path.fingerprint).Nodup := by
  rw [mruSpec_eq_dedup_take C hC]
  exact List.Nodup.sublist (List.Sublist.map _ (List.take_sublist _ _))
    (dedupByFp_nodup l)

/-- Folding source inserts over a chronological sequence produces
exactly the specified cache of the reversed (most-recent-first)
sequence. -/
theorem foldl_insert_eq_mruSpec (C : Nat) (hC : 0 < C) (l : List Pan.Path) :
    l.foldl (fun acc q => pathsMRU.insert acc q C) [] = mruSpec C l.reverse := by
  induction l using List.reverseRecOn with
  | nil => simp [mruSpec]
  | append_singleton l q ih =>
    rw [List.foldl_append, List.foldl_cons, List.foldl_nil, ih]
    rw [pathsMRU.insert_eq_spec _ _ _ hC (mruSpec_length_le C hC _)
      (mruSpec_nodup C hC _)]
    rw [List.reverse_append]
    rfl

/-- Mapping to fingerprints commutes with filtering one fingerprint
out. -/
theorem map_fp_filter_bne (d : List Pan.Path) (f0 : PathFingerprint) :
    (d.filter (fun r => r.fingerprint != f0)).map Pan.Path.fingerprint =
    (d.map Pan.Path.fingerprint).filter (fun g => g != f0) := by
  induction d with
  | nil => rfl
  | cons a as ih =>
    simp only [List.filter_cons, List.map_cons]
    by_cases h : (a.fingerprint != f0) = true
    · simp [h, ih]
    · simp [h, ih]

/-- Fingerprints of the deduplicated paths are the deduplicated
fingerprints. -/
theorem dedupByFp_map_fp (l : List Pan.Path) :
    (dedupByFp l).map Pan.Path.fingerprint = dedupFps (l.map Pan.Path.fingerprint) := by
  induction l with
  | nil => rfl
  | cons q older ih =>
    simp only [dedupByFp, dedupFps, List.map_cons]
    congr 1
    rw [← ih, map_fp_filter_bne]

/-! ## DefaultReplySelector state (udp_listen.go lines 229-357) -/

/-- DefaultReplySelector: per-remote MRU path lists. The last-seen
timestamp of remoteEntry plays no role in the claims and is omitted; a
remote never recorded maps to the empty list, like a missing key of
the Go map. -/
structure DefaultReplySelector where
  remotes : UDPAddr → pathsMRU

/-- NewDefaultReplySelector: empty map. -/
def NewDefaultReplySelector : DefaultReplySelector := ⟨fun _ => []⟩

/-- DefaultReplySelector.Path: the front of the MRU list of the remote,
nil when no entry or an empty list. -/
def DefaultReplySelector.Path (s : DefaultReplySelector) (remote : UDPAddr) :
    Option Pan.Path :=
  match s.remotes remote with
  | [] => none
  | q :: _ => some q

/-- DefaultReplySelector.Record: a nil path is ignored; otherwise the
path is MRU-inserted into the entry of the remote with capacity
maxEntries (the package constant defaultSelectorMaxReplyPaths, kept
abstract as a parameter). -/
def DefaultReplySelector.Record (maxEntries : Nat) (s : DefaultReplySelector)
    (remote : UDPAddr) (path : Option Pan.Path) : DefaultReplySelector :=
  match path with
  | none => s
  | some p =>
    ⟨fun r => if r = remote then pathsMRU.insert (s.remotes remote) p maxEntries
      else s.remotes r⟩

/-- A chronological sequence of Record calls applied in order. -/
def recordAll (maxEntries : Nat) (s : DefaultReplySelector)
    (events : List (UDPAddr × Option Pan.Path)) : DefaultReplySelector :=
  events.foldl (fun acc e => acc.Record maxEntries e.1 e.2) s

/-- The non-nil paths recorded for one remote, in chronological order. -/
def recordedFor (R : UDPAddr) : List (UDPAddr × Option Pan.Path) → List Pan.Path
  | [] => []
  | (_, none) :: es => recordedFor R es
  | (r, some q) :: es =>
    if r = R then q :: recordedFor R es else recordedFor R es

/-- The cache of one remote after a sequence of Records is the fold of
inserts over the paths recorded for it. -/
theorem recordAll_remotes (C : Nat) (s : DefaultReplySelector)
    (events : List (UDPAddr × Option Pan.Path)) (R : UDPAddr) :
    (recordAll C s events).remotes R =
      (recordedFor R events).foldl (fun acc q => pathsMRU.insert acc q C)
        (s.remotes R) := by
  induction events generalizing s with
  | nil => rfl
  | cons e es ih =>
    rcases e with ⟨r, p⟩
    rcases p with _ | p
    · exact ih s
    · show (recordAll C (DefaultReplySelector.Record C s r (some p)) es).remotes R = _
      rw [ih]
      by_cases hr : r = R
      · subst hr
        simp [recordedFor, DefaultReplySelector.Record]
      · have h2 : ¬ R = r := fun h => hr h.symm
        simp [recordedFor, DefaultReplySelector.Record, hr, h2]

/-- The C3 postcondition after an arbitrary chronological sequence of
Record calls starting from a fresh reply selector, for one remote R:
the cache is the specified MRU list of the most-recent-first recorded
paths; equivalently the keep-first deduplication truncated to the
capacity; it has at most C entries; its fingerprints are exactly the
most recent C distinct recorded fingerprints, most recent first; and
Path(R) is the most recently recorded path (none if none). -/
def MRUCacheOutcome (C : Nat) (events : List (UDPAddr × Option Pan.Path))
    (R : UDPAddr) : Prop :=
  ((recordAll C NewDefaultReplySelector events).remotes R =
      mruSpec C (recordedFor R events).reverse) ∧
  ((recordAll C NewDefaultReplySelector events).remotes R =
      (dedupByFp (recordedFor R events).reverse).take C) ∧
  ((recordAll C NewDefaultReplySelector events).remotes R).length ≤ C ∧
  (((recordAll C NewDefaultReplySelector events).remotes R).map Pan.Path.fingerprint =
      (dedupFps ((recordedFor R events).reverse.map Pan.Path.fingerprint)).take C) ∧
  ((recordAll C NewDefaultReplySelector events).Path R =
      (recordedFor R events).reverse.head?)

/-- C3: each Record of a non-nil path performs the
promote-or-insert-or-evict step (the insert conjunct), and after any
sequence of Records the per-remote cache holds at most C paths in
most-recently-recorded-first order, retains exactly the C most recent
distinct fingerprints, and Path returns the most recently recorded
path. -/
theorem c3_mru_reply_cache (C : Nat) (hC : 0 < C)
    (events : List (UDPAddr × Option Pan.Path)) (R : UDPAddr) :
    (∀ (l : pathsMRU) (p : Pan.Path), l.length ≤ C →
      (l.map Pan.Path.fingerprint).Nodup →
      pathsMRU.insert l p C = mruInsertSpec p l C) ∧
    MRUCacheOutcome C events R := by
  constructor
  · intro l p hlen hnodup
    exact pathsMRU.insert_eq_spec l p C hC hlen hnodup
  · have hcache : (recordAll C NewDefaultReplySelector events).remotes R =
        mruSpec C (recordedFor R events).reverse := by
      rw [recordAll_remotes]
      exact foldl_insert_eq_mruSpec C hC (recordedFor R events)
    refine ⟨hcache, ?_, ?_, ?_, ?_⟩
    · rw [hcache]
      exact mruSpec_eq_dedup_take C hC _
    · rw [hcache]
      exact mruSpec_length_le C hC _
    · rw [hcache, mruSpec_eq_dedup_take C hC, List.map_take, dedupByFp_map_fp]
    · rw [DefaultReplySelector.Path, hcache]
      obtain ⟨c, rfl⟩ : ∃ c, C = c + 1 := ⟨C - 1, by omega⟩
      cases hrev : (recordedFor R events).reverse with
      | nil => simp [mruSpec]
      | cons q older => simp [mruSpec, List.take_succ_cons]

/-- Witness for C3: the capacity-2 scenario of the specification:
Record(R, P1), Record(R, P2), Record(R, P3) leaves the cache [P3, P2]
and Path(R) = P3. -/
theorem c3_mru_reply_cache_witness :
    0 < 2 ∧
    ((∀ (l : pathsMRU) (p : Pan.Path), l.length ≤ 2 →
        (l.map Pan.Path.fingerprint).Nodup →
        pathsMRU.insert l p 2 = mruInsertSpec p l 2) ∧
      MRUCacheOutcome 2
        [(⟨1, 1, 1⟩, some pathA), (⟨1, 1, 1⟩, some pathB), (⟨1, 1, 1⟩, some pathC)]
        ⟨1, 1, 1⟩) ∧
    (recordAll 2 NewDefaultReplySelector
        [(⟨1, 1, 1⟩, some pathA), (⟨1, 1, 1⟩, some pathB), (⟨1, 1, 1⟩, some pathC)]).remotes
        ⟨1, 1, 1⟩ = [pathC, pathB] ∧
    (recordAll 2 NewDefaultReplySelector
        [(⟨1, 1, 1⟩, some pathA), (⟨1, 1, 1⟩, some pathB), (⟨1, 1, 1⟩, some pathC)]).Path
        ⟨1, 1, 1⟩ = some pathC :=
  ⟨by decide,
   c3_mru_reply_cache 2 (by decide)
     [(⟨1, 1, 1⟩, some pathA), (⟨1, 1, 1⟩, some pathB), (⟨1, 1, 1⟩, some pathC)]
     ⟨1, 1, 1⟩,
   by decide, by decide⟩

/-! ## The probing round of the PingingSelector
(selector.go lines 215-323): handlePingReply and the event loop from a
tick to the close of the round. -/

/-- Error carried by a ping reply (ping.Reply.Error): the two SCMP
down notifications the handler recognises, or any other error. -/
inductive ReplyError where
  | internalConnectivityDown (ia : IA) (egress : IfID)
  | externalInterfaceDown (ia : IA) (iface : IfID)
  | otherError
deriving DecidableEq, Repr

/-- A ping reply as consumed by handlePingReply: the optional error,
the source SCION address (none when the source host is not an IP
address), the echo sequence number, the fingerprint of the reversed
reply path (none when reversePathFingerprint fails), and the measured
round-trip time. -/
structure Reply where
  error : Option ReplyError
  source : Option ScionAddr
  seqNumber : Nat
  revFingerprint : Option PathFingerprint
  rtt : Duration
deriving DecidableEq, Repr

/-- The effects of handlePingReply: the updated awaiting set, the
latency samples recorded into the registry and the down notifications
forwarded to it. The function returns nothing to its caller in the
source; in particular no error is surfaced. -/
structure HandleResult where
  expectedReplies : List PathFingerprint
  latencyRecords : List (PathFingerprint × Duration)
  downNotifications : List (PathFingerprint × PathInterface)
deriving DecidableEq, Repr

/-- handlePingReply: an error reply is translated into a registry down
notification when it is one of the two recognised SCMP errors and its
path reverses to a fingerprint; a successful reply is dropped with no
effect unless its source is the remote (an IP address), its sequence
number is the expected one and its reversed fingerprint is awaited, in
which case its round-trip time is recorded and the fingerprint removed
from the awaiting set. -/
def handlePingReply (remote : ScionAddr) (reply : Reply)
    (expectedReplies : List PathFingerprint) (expectedSequenceNo : Nat) :
    HandleResult :=
  match reply.error with
  | some e =>
    match reply.revFingerprint with
    | none => ⟨expectedReplies, [], []⟩
    | some pf =>
      match e with
      | .internalConnectivityDown ia egress =>
        ⟨expectedReplies, [], [(pf, ⟨ia, egress⟩)]⟩
      | .externalInterfaceDown ia iface =>
        ⟨expectedReplies, [], [(pf, ⟨ia, iface⟩)]⟩
      | .otherError => ⟨expectedReplies, [], []⟩
  | none =>
    match reply.source with
    | none => ⟨expectedReplies, [], []⟩
    | some src =>
      if src ≠ remote ∨ reply.seqNumber ≠ expectedSequenceNo then
        ⟨expectedReplies, [], []⟩
      else
        match reply.revFingerprint with
        | none => ⟨expectedReplies, [], []⟩
        | some pf =>
          if pf ∈ expectedReplies then
            ⟨expectedReplies.erase pf, [(pf, reply.rtt)], []⟩
          else ⟨expectedReplies, [], []⟩

/-- C6: every successful reply whose source is not the remote (or not
an IP address), whose sequence number is not the current one, or whose
reversed fingerprint is not awaited (or whose path fails to reverse) is
dropped with no state change: the awaiting set, the registry records
and the down notifications are all untouched; the handler returns
nothing to its caller, so no error is surfaced. -/
theorem c6_handle_reply_drops_foreign (remote : ScionAddr) (reply : Reply)
    (expected : List PathFingerprint) (seqNo : Nat)
    (herr : reply.error = none)
    (hdrop : (∀ src, reply.source = some src → src ≠ remote) ∨
      reply.seqNumber ≠ seqNo ∨
      (∀ pf, reply.revFingerprint = some pf → pf ∉ expected)) :
    handlePingReply remote reply expected seqNo = ⟨expected, [], []⟩ := by
  cases hsrc : reply.source with
  | none => simp [handlePingReply, herr, hsrc]
  | some src =>
    rcases hdrop with h1 | h2 | h3
    · have h : src ≠ remote := h1 src hsrc
      simp [handlePingReply, herr, hsrc, h]
    · simp [handlePingReply, herr, hsrc, h2]
    · by_cases hcond : src ≠ remote ∨ reply.seqNumber ≠ seqNo
      · simp [handlePingReply, herr, hsrc, hcond]
      · push_neg at hcond
        cases hfp : reply.revFingerprint with
        | none => simp [handlePingReply, herr, hsrc, hfp, hcond.1, hcond.2]
        | some pf =>
          have hnm : pf ∉ expected := h3 pf hfp
          simp [handlePingReply, herr, hsrc, hfp, hnm, hcond.1, hcond.2]

/-- A sample successful reply whose reversed fingerprint 9 is foreign. -/
def foreignReply : Reply :=
  { error := none, source := some ⟨1, 1⟩, seqNumber := 5,
    revFingerprint := some 9, rtt := 11 }

/-- Witness for C6: a reply with matching source and sequence number
whose reversed fingerprint is not among the awaited ones. -/
theorem c6_handle_reply_drops_witness :
    foreignReply.error = none ∧
    ((∀ src, foreignReply.source = some src → src ≠ ⟨1, 1⟩) ∨
      foreignReply.seqNumber ≠ 5 ∨
      (∀ pf, foreignReply.revFingerprint = some pf → pf ∉ [1, 2])) ∧
    handlePingReply ⟨1, 1⟩ foreignReply [1, 2] 5 = ⟨[1, 2], [], []⟩ :=
  ⟨rfl,
   Or.inr (Or.inr (by intro pf hpf; cases hpf; decide)),
   c6_handle_reply_drops_foreign ⟨1, 1⟩ foreignReply [1, 2] 5 rfl
     (Or.inr (Or.inr (by intro pf hpf; cases hpf; decide)))⟩

/-- State of one probing round: the fingerprints still awaiting a
reply (the Go map replyPending, a set), the latency samples recorded
into the registry since the tick, and the number of reselection
triggers. -/
structure RoundState where
  replyPending : List PathFingerprint
  records : List (PathFingerprint × Duration)
  reselects : Nat
deriving DecidableEq, Repr

/-- The tick branch of the probing loop: numActive is clamped to the
number of candidate paths and a zero count skips the round (continue).
Otherwise the fingerprints of the first k candidates are marked
awaiting (deduplicated, as the Go map collapses duplicates), the
sequence number is incremented and sendPings sends one probe per
active path, so the returned active list has length k. -/
def pingTick (paths : List Pan.Path) (numActive : Nat) (seqNo : Nat) :
    Option (List Pan.Path × Nat × RoundState) :=
  let clamped := if numActive > paths.length then paths.length else numActive
  if clamped = 0 then none
  else some (paths.take clamped, seqNo + 1,
    { replyPending := ((paths.take clamped).map Pan.Path.fingerprint).dedup,
      records := [], reselects := 0 })

/-- runRound: the reply and timeout branches of the loop from a tick to
the close of the round. The replies of the list arrive, in order,
before the round timeout; each is processed by handlePingReply, and
whenever the awaiting set empties the timeout timer is stopped and
reselection triggered, closing the round. When the replies are
exhausted with fingerprints still awaited, the timeout fires: each
still-awaiting fingerprint is recorded with the timeout duration and
reselection is triggered (the guard mirrors the continue of the
source when nothing is awaited). -/
def runRound (remote : ScionAddr) (seqNo : Nat) (timeoutD : Duration) :
    List Reply → RoundState → RoundState
  | [], st =>
    if st.replyPending.isEmpty then st
    else
      { replyPending := [],
        records := st.records ++ st.replyPending.map (fun pf => (pf, timeoutD)),
        reselects := st.reselects + 1 }
  | r :: rs, st =>
    let res := handlePingReply remote r st.replyPending seqNo
    let st2 : RoundState :=
      { replyPending := res.expectedReplies,
        records := st.records ++ res.latencyRecords,
        reselects := st.reselects }
    if st2.replyPending.isEmpty then
      { st2 with reselects := st2.reselects + 1 }
    else runRound remote seqNo timeoutD rs st2

/-- A reply is the valid probe answer for fingerprint pf in the round
with the given sequence number and remote. -/
def ValidReplyFor (remote : ScionAddr) (seqNo : Nat) (pf : PathFingerprint)
    (r : Reply) : Prop :=
  r.error = none ∧ r.source = some remote ∧ r.seqNumber = seqNo ∧
    r.revFingerprint = some pf

/-- handlePingReply either leaves the awaiting set and the latency
records untouched (drop or down notification), or processes the valid
answer of an awaited fingerprint: it records its round-trip time once
and removes exactly that fingerprint. -/
theorem handlePingReply_cases (remote : ScionAddr) (r : Reply)
    (expected : List PathFingerprint) (seqNo : Nat) :
    (∃ dns, handlePingReply remote r expected seqNo = ⟨expected, [], dns⟩) ∨
    (∃ pf, pf ∈ expected ∧ ValidReplyFor remote seqNo pf r ∧
      handlePingReply remote r expected seqNo =
        ⟨expected.erase pf, [(pf, r.rtt)], []⟩) := by
  cases herr : r.error with
  | some e =>
    cases hfp : r.revFingerprint with
    | none =>
      left
      exact ⟨[], by simp [handlePingReply, herr, hfp]⟩
    | some pf =>
      cases e with
      | internalConnectivityDown ia egress =>
        left
        exact ⟨[(pf, ⟨ia, egress⟩)], by simp [handlePingReply, herr, hfp]⟩
      | externalInterfaceDown ia iface =>
        left
        exact ⟨[(pf, ⟨ia, iface⟩)], by simp [handlePingReply, herr, hfp]⟩
      | otherError =>
        left
        exact ⟨[], by simp [handlePingReply, herr, hfp]⟩
  | none =>
    cases hsrc : r.source with
    | none =>
      left
      exact ⟨[], by simp [handlePingReply, herr, hsrc]⟩
    | some src =>
      by_cases hcond : src ≠ remote ∨ r.seqNumber ≠ seqNo
      · left
        exact ⟨[], by simp [handlePingReply, herr, hsrc, hcond]⟩
      · push_neg at hcond
        cases hfp : r.revFingerprint with
        | none =>
          left
          exact ⟨[], by simp [handlePingReply, herr, hsrc, hfp, hcond.1, hcond.2]⟩
        | some pf =>
          by_cases hmem : pf ∈ expected
          · right
            refine ⟨pf, hmem, ⟨herr, by rw [hsrc, hcond.1], hcond.2, hfp⟩, ?_⟩
            simp [handlePingReply, herr, hsrc, hfp, hmem, hcond.1, hcond.2]
          · left
            exact ⟨[], by simp [handlePingReply, herr, hsrc, hfp, hmem,
              hcond.1, hcond.2]⟩

/-- Latency samples recorded for one fingerprint. -/
def recordsFor (pf : PathFingerprint)
    (records : List (PathFingerprint × Duration)) : Nat :=
  records.countP (fun e => e.1 == pf)

/-- recordsFor distributes over appended record lists. -/
theorem recordsFor_append (pf : PathFingerprint)
    (a b : List (PathFingerprint × Duration)) :
    recordsFor pf (a ++ b) = recordsFor pf a + recordsFor pf b :=
  List.countP_append _ _ _

/-- Each fingerprint of a duplicate-free list receives exactly one
timeout sample from the timeout branch. -/
theorem recordsFor_timeout_map (pf : PathFingerprint)
    (pending : List PathFingerprint) (hnd : pending.Nodup) (timeoutD : Duration) :
    recordsFor pf (pending.map (fun g => (g, timeoutD))) =
      if pf ∈ pending then 1 else 0 := by
  unfold recordsFor
  rw [List.countP_map]
  induction pending with
  | nil => simp
  | cons a as ih =>
    rw [List.nodup_cons] at hnd
    rw [List.countP_cons]
    have hcnt := ih hnd.2
    by_cases ha : a = pf
    · subst ha
      have hz : List.countP ((fun e => e.1 == a) ∘ fun g => (g, timeoutD)) as = 0 := by
        apply List.countP_eq_zero.mpr
        intro g hg
        simp only [Function.comp_apply, beq_iff_eq]
        intro hbad
        exact hnd.1 (hbad ▸ hg)
      simp [hz]
    · have hpa : pf ≠ a := fun h => ha h.symm
      have hb : (a == pf) = false := by simpa using ha
      simp only [Function.comp_apply] at hcnt ⊢
      by_cases hm : pf ∈ as
      · simp [hcnt, hb, hm, List.mem_cons]
      · simp [hcnt, hb, hm, List.mem_cons, hpa]

/-- A single-sample record list counts one for its fingerprint. -/
theorem recordsFor_single (pf g : PathFingerprint) (d : Duration) :
    recordsFor pf [(g, d)] = if g = pf then 1 else 0 := by
  unfold recordsFor
  by_cases h : g = pf
  · simp [List.countP_cons, h]
  · simp [List.countP_cons, h]

/-- From a tick with a duplicate-free nonempty awaiting set the round
closes: the awaiting set empties; reselection is triggered exactly
once (at the last outstanding reply or at the timeout, whichever
comes first); every awaiting fingerprint gains exactly one latency
sample and no other fingerprint gains any; each new sample is the
timeout duration or the round-trip time of a valid reply of the round;
and a fingerprint with no valid reply in the round receives the
timeout sample. -/
theorem runRound_closes (remote : ScionAddr) (seqNo : Nat) (timeoutD : Duration)
    (rs : List Reply) (pending : List PathFingerprint)
    (records : List (PathFingerprint × Duration)) (resel : Nat)
    (hnd : pending.Nodup) (hne : pending ≠ []) :
    (runRound remote seqNo timeoutD rs ⟨pending, records, resel⟩).replyPending = [] ∧
    (runRound remote seqNo timeoutD rs ⟨pending, records, resel⟩).reselects = resel + 1 ∧
    (∀ pf, pf ∈ pending →
      recordsFor pf (runRound remote seqNo timeoutD rs ⟨pending, records, resel⟩).records =
        recordsFor pf records + 1) ∧
    (∀ pf, pf ∉ pending →
      recordsFor pf (runRound remote seqNo timeoutD rs ⟨pending, records, resel⟩).records =
        recordsFor pf records) ∧
    (∀ pf d, (pf, d) ∈ (runRound remote seqNo timeoutD rs ⟨pending, records, resel⟩).records →
      (pf, d) ∈ records ∨ d = timeoutD ∨
        ∃ r ∈ rs, ValidReplyFor remote seqNo pf r ∧ d = r.rtt) ∧
    (∀ pf, pf ∈ pending → (∀ r ∈ rs, ¬ ValidReplyFor remote seqNo pf r) →
      (pf, timeoutD) ∈
        (runRound remote seqNo timeoutD rs ⟨pending, records, resel⟩).records) := by
  induction rs generalizing pending records resel with
  | nil =>
    have hie : pending.isEmpty = false := by
      cases pending
      · exact absurd rfl hne
      · rfl
    simp only [runRound, hie, Bool.false_eq_true, if_false]
    refine ⟨trivial, trivial, ?_, ?_, ?_, ?_⟩
    · intro pf hpf
      rw [recordsFor_append, recordsFor_timeout_map pf pending hnd timeoutD,
        if_pos hpf]
    · intro pf hpf
      rw [recordsFor_append, recordsFor_timeout_map pf pending hnd timeoutD,
        if_neg hpf, Nat.add_zero]
    · intro pf d hmem
      rcases List.mem_append.mp hmem with h | h
      · exact Or.inl h
      · obtain ⟨g, _, hgd⟩ := List.mem_map.mp h
        have hd : d = timeoutD := by
          have := congrArg Prod.snd hgd
          simpa using this.symm
        exact Or.inr (Or.inl hd)
    · intro pf hpf _
      exact List.mem_append.mpr (Or.inr (List.mem_map.mpr ⟨pf, hpf, rfl⟩))
  | cons r rs ih =>
    have hie : pending.isEmpty = false := by
      cases pending
      · exact absurd rfl hne
      · rfl
    rcases handlePingReply_cases remote r pending seqNo with
      ⟨dns, hres⟩ | ⟨pf0, hpf0, hvalid, hres⟩
    · simp only [runRound, hres, List.append_nil, hie, Bool.false_eq_true, if_false]
      obtain ⟨g1, g2, g3, g4, g5, g6⟩ := ih pending records resel hnd hne
      refine ⟨g1, g2, g3, g4, ?_, ?_⟩
      · intro pf d hmem
        rcases g5 pf d hmem with h | h | ⟨r2, hr2, hv, hd⟩
        · exact Or.inl h
        · exact Or.inr (Or.inl h)
        · exact Or.inr (Or.inr ⟨r2, List.mem_cons_of_mem _ hr2, hv, hd⟩)
      · intro pf hpf hnov
        exact g6 pf hpf (fun r2 hr2 => hnov r2 (List.mem_cons_of_mem _ hr2))
    · by_cases hemp : pending.erase pf0 = []
      · have hpend : pending = [pf0] := by
          have hlen := List.length_erase_of_mem hpf0
          rw [hemp] at hlen
          have hone : pending.length = 1 := by
            have hpos : 0 < pending.length := List.length_pos.mpr hne
            simp at hlen
            omega
          obtain ⟨b, rfl⟩ := List.length_eq_one.mp hone
          have hb : pf0 = b := by simpa using hpf0
          rw [hb]
        subst hpend
        simp only [runRound, hres, List.erase_cons_head, List.isEmpty_nil,
          if_true, ite_true]
        refine ⟨trivial, trivial, ?_, ?_, ?_, ?_⟩
        · intro pf hpf
          have hp : pf = pf0 := by simpa using hpf
          subst hp
          rw [recordsFor_append, recordsFor_single, if_pos rfl]
        · intro pf hpf
          have hp : ¬ pf0 = pf := by
            intro h
            exact hpf (by simp [h])
          rw [recordsFor_append, recordsFor_single, if_neg hp, Nat.add_zero]
        · intro pf d hmem
          rcases List.mem_append.mp hmem with h | h
          · exact Or.inl h
          · have h2 : pf = pf0 ∧ d = r.rtt := by simpa using h
            refine Or.inr (Or.inr ⟨r, List.mem_cons_self r rs, ?_, h2.2⟩)
            rw [h2.1]
            exact hvalid
        · intro pf hpf hnov
          have hp : pf = pf0 := by simpa using hpf
          subst hp
          exact absurd hvalid (hnov r (List.mem_cons_self r rs))
      · have hnd2 : (pending.erase pf0).Nodup := hnd.erase pf0
        have hie2 : (pending.erase pf0).isEmpty = false := by
          cases h2 : pending.erase pf0
          · exact absurd h2 hemp
          · rfl
        simp only [runRound, hres, hie2, Bool.false_eq_true, if_false]
        obtain ⟨g1, g2, g3, g4, g5, g6⟩ :=
          ih (pending.erase pf0) (records ++ [(pf0, r.rtt)]) resel hnd2 hemp
        refine ⟨g1, g2, ?_, ?_, ?_, ?_⟩
        · intro pf hpf
          by_cases hp : pf = pf0
          · subst hp
            have hnm : pf ∉ pending.erase pf := by
              intro h
              exact absurd rfl ((hnd.mem_erase_iff.mp h).1)
            rw [g4 pf hnm, recordsFor_append, recordsFor_single, if_pos rfl]
          · have hm2 : pf ∈ pending.erase pf0 :=
              hnd.mem_erase_iff.mpr ⟨hp, hpf⟩
            have hps : ¬ pf0 = pf := fun h => hp h.symm
            rw [g3 pf hm2, recordsFor_append, recordsFor_single, if_neg hps,
              Nat.add_zero]
        · intro pf hpf
          have hp : ¬ pf0 = pf := by
            intro h
            exact hpf (h ▸ hpf0)
          have hm2 : pf ∉ pending.erase pf0 := fun h => hpf (List.erase_subset _ _ h)
          rw [g4 pf hm2, recordsFor_append, recordsFor_single, if_neg hp,
            Nat.add_zero]
        · intro pf d hmem
          rcases g5 pf d hmem with h | h | ⟨r2, hr2, hv, hd⟩
          · rcases List.mem_append.mp h with h2 | h2
            · exact Or.inl h2
            · have h3 : pf = pf0 ∧ d = r.rtt := by simpa using h2
              refine Or.inr (Or.inr ⟨r, List.mem_cons_self r rs, ?_, h3.2⟩)
              rw [h3.1]
              exact hvalid
          · exact Or.inr (Or.inl h)
          · exact Or.inr (Or.inr ⟨r2, List.mem_cons_of_mem _ hr2, hv, hd⟩)
        · intro pf hpf hnov
          have hp : pf ≠ pf0 := by
            intro h
            exact hnov r (List.mem_cons_self r rs) (h ▸ hvalid)
          have hm2 : pf ∈ pending.erase pf0 := hnd.mem_erase_iff.mpr ⟨hp, hpf⟩
          exact g6 pf hm2 (fun r2 hr2 => hnov r2 (List.mem_cons_of_mem _ hr2))

/-- The C2 postcondition of a started round: the tick probes exactly
k = min(numActive, candidates) paths under a freshly incremented
sequence number, marks the first k candidate fingerprints awaiting,
and by the close of the round the awaiting set is empty, reselection
was triggered exactly once, every awaiting fingerprint received
exactly one registry latency sample and nothing else received any;
each sample is a valid round-trip time of this round or the timeout
duration, and a fingerprint whose matching reply never arrives
receives the timeout sample. -/
def ProbingRoundOutcome (paths : List Pan.Path) (numActive seqNo : Nat)
    (remote : ScionAddr) (timeoutD : Duration) (rs : List Reply) : Prop :=
  ∃ active newSeq st0,
    pingTick paths numActive seqNo = some (active, newSeq, st0) ∧
    active.length = min numActive paths.length ∧
    newSeq = seqNo + 1 ∧
    st0.replyPending =
      ((paths.take (min numActive paths.length)).map Pan.Path.fingerprint).dedup ∧
    (runRound remote newSeq timeoutD rs st0).replyPending = [] ∧
    (runRound remote newSeq timeoutD rs st0).reselects = 1 ∧
    (∀ pf, pf ∈ st0.replyPending →
      recordsFor pf (runRound remote newSeq timeoutD rs st0).records = 1) ∧
    (∀ pf, pf ∉ st0.replyPending →
      recordsFor pf (runRound remote newSeq timeoutD rs st0).records = 0) ∧
    (∀ pf d, (pf, d) ∈ (runRound remote newSeq timeoutD rs st0).records →
      d = timeoutD ∨ ∃ r ∈ rs, ValidReplyFor remote newSeq pf r ∧ d = r.rtt) ∧
    (∀ pf, pf ∈ st0.replyPending →
      (∀ r ∈ rs, ¬ ValidReplyFor remote newSeq pf r) →
      (pf, timeoutD) ∈ (runRound remote newSeq timeoutD rs st0).records)

/-- C2: a tick with k = min(active count, candidates) = 0 sends no
probes and starts no round; with k > 0, exactly k probes are sent
under a fresh sequence number and the round satisfies the
ProbingRoundOutcome: one latency sample per awaiting fingerprint
(round-trip time of its reply or the timeout duration), none for any
other fingerprint, and exactly one reselection at the close. -/
theorem c2_probing_round (paths : List Pan.Path) (numActive seqNo : Nat)
    (remote : ScionAddr) (timeoutD : Duration) (rs : List Reply) :
    (min numActive paths.length = 0 → pingTick paths numActive seqNo = none) ∧
    (0 < min numActive paths.length →
      ProbingRoundOutcome paths numActive seqNo remote timeoutD rs) := by
  have hcl : (if numActive > paths.length then paths.length else numActive) =
      min numActive paths.length := by
    rcases le_or_lt numActive paths.length with h | h
    · rw [if_neg (by omega), Nat.min_eq_left h]
    · rw [if_pos h, Nat.min_eq_right (by omega)]
  constructor
  · intro h0
    simp only [pingTick, hcl, h0, if_pos, ite_true]
  · intro hk
    have hkne : ¬ min numActive paths.length = 0 := by omega
    have hinit : pingTick paths numActive seqNo =
        some (paths.take (min numActive paths.length), seqNo + 1,
          ⟨((paths.take (min numActive paths.length)).map
              Pan.Path.fingerprint).dedup, [], 0⟩) := by
      simp only [pingTick, hcl, hkne, if_false, ite_false]
    have hkle : min numActive paths.length ≤ paths.length := Nat.min_le_right _ _
    have hlen : (paths.take (min numActive paths.length)).length =
        min numActive paths.length := by
      rw [List.length_take]
      omega
    have hnd : (((paths.take (min numActive paths.length)).map
        Pan.Path.fingerprint).dedup).Nodup := List.nodup_dedup _
    have hne : (((paths.take (min numActive paths.length)).map
        Pan.Path.fingerprint).dedup) ≠ [] := by
      cases hp : paths.take (min numActive paths.length) with
      | nil =>
        rw [hp] at hlen
        simp at hlen
        omega
      | cons a as =>
        intro hbad
        have hmem : a.fingerprint ∈ ((a :: as).map Pan.Path.fingerprint).dedup := by
          rw [List.mem_dedup]
          exact List.mem_map_of_mem _ (List.mem_cons_self a as)
        rw [hbad] at hmem
        exact absurd hmem (List.not_mem_nil _)
    obtain ⟨g1, g2, g3, g4, g5, g6⟩ :=
      runRound_closes remote (seqNo + 1) timeoutD rs
        (((paths.take (min numActive paths.length)).map
          Pan.Path.fingerprint).dedup) [] 0 hnd hne
    refine ⟨paths.take (min numActive paths.length), seqNo + 1,
      ⟨((paths.take (min numActive paths.length)).map
        Pan.Path.fingerprint).dedup, [], 0⟩,
      hinit, hlen, rfl, rfl, g1, g2, ?_, ?_, ?_, g6⟩
    · intro pf hpf
      simpa using g3 pf hpf
    · intro pf hpf
      simpa using g4 pf hpf
    · intro pf d hmem
      rcases g5 pf d hmem with h | h | h
      · exact absurd h (List.not_mem_nil _)
      · exact Or.inl h
      · exact Or.inr h

/-- A valid probe answer of the witness round for fingerprint 1. -/
def replyA : Reply :=
  { error := none, source := some ⟨1, 1⟩, seqNumber := 1,
    revFingerprint := some 1, rtt := 5 }

/-- A valid probe answer of the witness round for fingerprint 2. -/
def replyB : Reply :=
  { error := none, source := some ⟨1, 1⟩, seqNumber := 1,
    revFingerprint := some 2, rtt := 7 }

/-- Witness for C2: the scenario of the specification: three
candidates probed, two reply in time, one times out; the registry
receives two round-trip samples and one timeout sample and
reselection triggers once. -/
theorem c2_probing_round_witness :
    0 < min 3 ([pathA, pathB, pathC] : List Pan.Path).length ∧
    ProbingRoundOutcome [pathA, pathB, pathC] 3 0 ⟨1, 1⟩ 100 [replyA, replyB] ∧
    runRound ⟨1, 1⟩ 1 100 [replyA, replyB] ⟨[1, 2, 3], [], 0⟩ =
      ⟨[], [(1, 5), (2, 7), (3, 100)], 1⟩ :=
  ⟨by decide,
   (c2_probing_round [pathA, pathB, pathC] 3 0 ⟨1, 1⟩ 100
     [replyA, replyB]).2 (by decide),
   by decide⟩

end Pan
